import Mathlib

/-!
Verification of the permission-grammar parser and SQL-predicate compiler of
the leptos-session-auth repository.

The source has two variants of the parser:
* `src/permission.rs` — the extended grammar (`READ(equipment[1])|WRITE(*)|CREATE(true)`),
  embedded below in namespace `Ext`;
* `src/auth.rs` — the minimal grammar (`READ(1,2)|WRITE(*)`), embedded in namespace `Min`.

Strings are modelled as their character lists (`String.data`); Rust byte
offsets into the normalized string coincide with character indices for the
purposes of the parser because the bracket/paren delimiters searched for are
single-byte ASCII characters, so slicing between delimiter positions extracts
the same text either way, and a Rust slice-range panic (start > end) happens
exactly when the first `]` precedes the first `[`.

Fallible code is modelled with `ParseResult`, which has a dedicated
`panicked` outcome mirroring an abnormal (panicking) termination of the Rust
code, as opposed to an `Err` value being returned.
-/

/-- Result of running a fallible Rust function: normal success, a returned
`Err` with its message, or a panic (abnormal termination). -/
inductive ParseResult (α : Type) where
  | ok (a : α)
  | err (msg : String)
  | panicked
deriving DecidableEq, Repr

/-- Rust's `char::to_ascii_uppercase`: maps `a`..`z` to `A`..`Z`, leaves
every other character unchanged. -/
def toAsciiUpper (c : Char) : Char :=
  if 'a' ≤ c ∧ c ≤ 'z' then Char.ofNat (c.toNat - 32) else c

/-- Rust's `str::split(sep)` for a single-character separator, on character
lists: `"" ↦ [""]`, `"a|" ↦ ["a", ""]`, `"a||b" ↦ ["a", "", "b"]`. -/
def splitOnChar (sep : Char) : List Char → List (List Char)
  | [] => [[]]
  | c :: rest =>
    if c = sep then [] :: splitOnChar sep rest
    else
      match splitOnChar sep rest with
      | [] => [[c]]
      | cur :: more => (c :: cur) :: more

/-- Rust's `str::split_once(sep)`: split at the first occurrence of `sep`,
returning the parts before and after it, or `none` if `sep` does not occur. -/
def splitOnceChar (sep : Char) (s : List Char) : Option (List Char × List Char) :=
  match s.findIdx? (· == sep) with
  | none => none
  | some i => some (s.take i, s.drop (i + 1))

/-- Accumulate the decimal value of a digit string; `none` if a non-digit
character occurs. -/
def digitsVal : List Char → Nat → Option Nat
  | [], acc => some acc
  | c :: rest, acc =>
    if '0' ≤ c ∧ c ≤ '9' then digitsVal rest (acc * 10 + (c.toNat - 48))
    else none

/-- Rust's `str::parse::<i32>()`: an optional `+`/`-` sign followed by at
least one ASCII digit, with the value required to fit in a signed 32-bit
integer. -/
def parseI32 (s : List Char) : Option Int :=
  match s with
  | [] => none
  | '+' :: rest =>
    if rest = [] then none
    else (digitsVal rest 0).bind fun n =>
      if n ≤ 2147483647 then some (Int.ofNat n) else none
  | '-' :: rest =>
    if rest = [] then none
    else (digitsVal rest 0).bind fun n =>
      if n ≤ 2147483648 then some (-(Int.ofNat n)) else none
  | _ =>
    (digitsVal s 0).bind fun n =>
      if n ≤ 2147483647 then some (Int.ofNat n) else none

/-- Decimal digits of `n`, most significant first, computed with explicit
fuel (`n + 1` is always enough since the digit count of `n` is at most
`n + 1`). -/
def natCharsAux : Nat → Nat → List Char
  | 0, _ => []
  | fuel + 1, n =>
    if n < 10 then [Char.ofNat (48 + n)]
    else natCharsAux fuel (n / 10) ++ [Char.ofNat (48 + n % 10)]

/-- Decimal rendering of a natural number. -/
def natChars (n : Nat) : List Char := natCharsAux (n + 1) n

/-- Rust's `Display` for `i32`: plain decimal digits with a leading `-` for
negative values. -/
def intChars : Int → List Char
  | Int.ofNat n => natChars n
  | Int.negSucc m => '-' :: natChars (m + 1)

namespace Ext

/-- `Scope` from `src/permission.rs`. -/
inductive Scope where
  | Equipment (id : Int)
  | Person (id : Int)
  | Any
deriving DecidableEq, Repr

/-- `Permission` from `src/permission.rs`. -/
inductive Permission where
  | ReadAny
  | Read (scopes : List Scope)
  | WriteAny
  | Write (scopes : List Scope)
  | Create (b : Bool)
deriving DecidableEq, Repr

/-- `Permissions::ReadWrite` from `src/permission.rs`. -/
structure Permissions where
  read : Permission
  write : Permission
  create : Permission
deriving DecidableEq, Repr

/-- The three accumulators of `Permission::parse` in `src/permission.rs`:
`read_scopes`, `write_scopes` and `create_scope`. -/
structure ParseState where
  read_scopes : List Scope
  write_scopes : List Scope
  create_scope : Option Bool
deriving DecidableEq, Repr

def initState : ParseState := ⟨[], [], none⟩

def noScopeMsg : String := "Invalid permission string (No scope found)"

def missingIdMsg : String := "Invalid permission string (Missing id)"

def couldNotParseMsg : String := "Invalid permission string (Could not parse id)"

def unrecognizedActionMsg : String := "Invalid permission string (Unrecognized action)"

def unrecognizedScopeMsg : String := "Invalid permission string (Unrecognized scope)"

def noActionMsg : String := "Invalid permission string (No action/scope found)"

/-- The body of the inner `for scope_str in &scope` loop of
`Permission::parse` (`src/permission.rs` lines 50-81): locate the brackets
(`Missing id` if either is absent), slice out the id between them (a Rust
range slice panics when the first `]` precedes the first `[`, i.e. when
`open_paren + 1 > close_paren`), parse it as an `i32` (`Could not parse id`
on failure), then dispatch on the scope tag and the clause action. -/
def processScopeItem (action : List Char) (st : ParseState) (scope_str : List Char) :
    ParseResult ParseState :=
  match scope_str.findIdx? (· == '[') with
  | none => .err missingIdMsg
  | some open_paren =>
    match scope_str.findIdx? (· == ']') with
    | none => .err missingIdMsg
    | some close_paren =>
      if open_paren + 1 > close_paren then .panicked
      else
        let id_str := (scope_str.drop (open_paren + 1)).take (close_paren - (open_paren + 1))
        match parseI32 id_str with
        | none => .err couldNotParseMsg
        | some id =>
          if scope_str.take open_paren = "EQUIPMENT".data then
            if action = "READ".data then
              .ok { st with read_scopes := st.read_scopes ++ [Scope.Equipment id] }
            else if action = "WRITE".data then
              .ok { st with write_scopes := st.write_scopes ++ [Scope.Equipment id] }
            else .err unrecognizedActionMsg
          else if scope_str.take open_paren = "PERSON".data then
            if action = "READ".data then
              .ok { st with read_scopes := st.read_scopes ++ [Scope.Person id] }
            else if action = "WRITE".data then
              .ok { st with write_scopes := st.write_scopes ++ [Scope.Person id] }
            else .err unrecognizedActionMsg
          else .err unrecognizedScopeMsg

/-- Run `processScopeItem` over the comma-separated scope items of one
clause, stopping at the first error (the Rust loop's early `return`). -/
def runItems (action : List Char) (st : ParseState) : List (List Char) → ParseResult ParseState
  | [] => .ok st
  | item :: rest =>
    match processScopeItem action st item with
    | .ok st' => runItems action st' rest
    | .err m => .err m
    | .panicked => .panicked

/-- One iteration of the `for perm in perms.split("|")` loop of
`Permission::parse` (`src/permission.rs` lines 39-84). -/
def processClause (st : ParseState) (clause : List Char) : ParseResult ParseState :=
  if clause = "READ(*".data then
    .ok { st with read_scopes := st.read_scopes ++ [Scope.Any] }
  else if clause = "WRITE(*".data then
    .ok { st with write_scopes := st.write_scopes ++ [Scope.Any] }
  else if clause = "CREATE(TRUE".data then
    .ok { st with create_scope := some true }
  else if clause = "CREATE(FALSE".data then
    .ok { st with create_scope := some false }
  else
    match splitOnceChar '(' clause with
    | none => .err noScopeMsg
    | some (action, scope) => runItems action st (splitOnChar ',' scope)

/-- Fold `processClause` over the clause list, stopping at the first
error. -/
def runClauses (r : ParseResult ParseState) : List (List Char) → ParseResult ParseState
  | [] => r
  | cl :: rest =>
    match r with
    | .ok st => runClauses (processClause st cl) rest
    | .err m => .err m
    | .panicked => .panicked

/-- The write-scope-closure repair loop of `Permission::parse`
(`src/permission.rs` lines 97-101): every write scope not already readable is
appended to the read scopes. -/
def closeScopes (read_scopes write_scopes : List Scope) : List Scope :=
  write_scopes.foldl (fun acc id => if id ∈ acc then acc else acc ++ [id]) read_scopes

/-- The final validation and repair pass of `Permission::parse`
(`src/permission.rs` lines 86-110). The `panicked` branch mirrors the
`create_scope.unwrap()` call, which is unreachable behind the emptiness
guard. -/
def finalize (st : ParseState) : ParseResult Permissions :=
  if st.read_scopes = [] ∨ st.write_scopes = [] ∨ st.create_scope = none then
    .err noActionMsg
  else
    match st.create_scope with
    | none => .panicked
    | some c =>
      let rw :=
        if Scope.Any ∈ st.write_scopes then (Permission.ReadAny, Permission.WriteAny)
        else if Scope.Any ∈ st.read_scopes then
          (Permission.ReadAny, Permission.Write st.write_scopes)
        else
          (Permission.Read (closeScopes st.read_scopes st.write_scopes),
           Permission.Write st.write_scopes)
      .ok ⟨rw.1, rw.2, Permission.Create c⟩

/-- The preprocessing line of `Permission::parse`: drop every space and `)`
character, then uppercase. -/
def normalize (perm : String) : List Char :=
  (perm.data.filter fun c => c != ' ' && c != ')').map toAsciiUpper

/-- The clause tokens of the normalized input: split on `|`. -/
def clausesOf (perm : String) : List (List Char) :=
  splitOnChar '|' (normalize perm)

/-- `Permission::parse` from `src/permission.rs` (extended grammar). -/
def Permission.parse (perm : String) : ParseResult Permissions :=
  match runClauses (.ok initState) (clausesOf perm) with
  | .ok st => finalize st
  | .err m => .err m
  | .panicked => .panicked

/-- The `field` sanitization at the top of `Permission::get_query_select`
(`src/permission.rs` lines 114-118). -/
def sanitizeField (field : String) : String :=
  match field with
  | "id" => "id"
  | "equipment" => "equipment"
  | _ => "id"

/-- One step of the id-accumulating loop of `get_query_select`: push a comma
separator if the accumulator is non-empty, then the decimal id. -/
def pushId (acc : List Char) (id : Int) : List Char :=
  (if acc = [] then acc else acc ++ [',']) ++ intChars id

/-- The `for item in scope.iter()` loop of `get_query_select`
(`src/permission.rs` lines 127-143), building the `equipment_ids` and
`person_ids` strings. -/
def collectIds : List Scope → List Char × List Char → List Char × List Char
  | [], acc => acc
  | Scope.Equipment id :: rest, (e, p) => collectIds rest (pushId e id, p)
  | Scope.Person id :: rest, (e, p) => collectIds rest (e, pushId p id)
  | Scope.Any :: rest, acc => collectIds rest acc

/-- Character-level body of `Permission::get_query_select`
(`src/permission.rs` lines 113-163). -/
def gqsChars (p : Permission) (field : String) : List Char :=
  let field_sanitized := sanitizeField field
  match p with
  | Permission.ReadAny | Permission.WriteAny | Permission.Write _ | Permission.Create _ => []
  | Permission.Read scope =>
    match collectIds scope ([], []) with
    | (equipment_ids, person_ids) =>
      (if ¬equipment_ids = [] ∨ ¬person_ids = [] then " WHERE ".data else [])
        ++ (if ¬equipment_ids = [] then
              field_sanitized.data ++ " IN (".data ++ equipment_ids ++ [')']
            else [])
        ++ (if ¬person_ids = [] then
              (if ¬equipment_ids = [] then " AND ".data else [])
                ++ "person IN (".data ++ person_ids ++ [')']
            else [])

/-- `Permission::get_query_select` from `src/permission.rs`. -/
def Permission.get_query_select (p : Permission) (field : String) : String :=
  ⟨gqsChars p field⟩

end Ext

namespace Min

/-- `Permission` from `src/auth.rs` (minimal grammar): scopes are bare `i32`
ids, with the wildcard encoded as `-1`. -/
inductive Permission where
  | ReadAny
  | Read (ids : List Int)
  | WriteAny
  | Write (ids : List Int)
deriving DecidableEq, Repr

/-- `Permissions::ReadWrite` from `src/auth.rs`. -/
structure Permissions where
  read : Permission
  write : Permission
deriving DecidableEq, Repr

/-- The accumulators `read_ids` and `write_ids` of `Permission::parse` in
`src/auth.rs`. -/
structure ParseState where
  read_ids : List Int
  write_ids : List Int
deriving DecidableEq, Repr

def invalidMsg : String := "Invalid permission string"

/-- The inner `for item in &scope` loop of `Permission::parse` in
`src/auth.rs` (lines 34-39): parse each comma-separated item as an `i32`,
failing on the first bad item. -/
def parseIds : List (List Char) → Option (List Int)
  | [] => some []
  | item :: rest =>
    match parseI32 item with
    | none => none
    | some id => (parseIds rest).map (id :: ·)

/-- One iteration of the clause loop of `Permission::parse` in `src/auth.rs`
(lines 24-52). Note that a wildcard clause pushes `-1` onto the accumulator,
while a plain id-list clause replaces the accumulator wholesale. -/
def processClause (st : ParseState) (clause : List Char) : ParseResult ParseState :=
  if clause = "READ(*".data then
    .ok { st with read_ids := st.read_ids ++ [-1] }
  else if clause = "WRITE(*".data then
    .ok { st with write_ids := st.write_ids ++ [-1] }
  else
    match splitOnceChar '(' clause with
    | none => .err invalidMsg
    | some (action, scope) =>
      match parseIds (splitOnChar ',' scope) with
      | none => .err invalidMsg
      | some ids =>
        if action = "READ".data then .ok { st with read_ids := ids }
        else if action = "WRITE".data then .ok { st with write_ids := ids }
        else .err invalidMsg

/-- Fold `processClause` over the clause list, stopping at the first
error. -/
def runClauses (r : ParseResult ParseState) : List (List Char) → ParseResult ParseState
  | [] => r
  | cl :: rest =>
    match r with
    | .ok st => runClauses (processClause st cl) rest
    | .err m => .err m
    | .panicked => .panicked

/-- The write-id-closure repair loop of `Permission::parse` in `src/auth.rs`
(lines 65-69). -/
def closeIds (read_ids write_ids : List Int) : List Int :=
  write_ids.foldl (fun acc id => if id ∈ acc then acc else acc ++ [id]) read_ids

/-- The final validation and repair pass of `Permission::parse` in
`src/auth.rs` (lines 54-74). -/
def finalize (st : ParseState) : ParseResult Permissions :=
  if st.read_ids = [] ∨ st.write_ids = [] then .err invalidMsg
  else
    let rw :=
      if (-1 : Int) ∈ st.write_ids then (Permission.ReadAny, Permission.WriteAny)
      else if (-1 : Int) ∈ st.read_ids then (Permission.ReadAny, Permission.Write st.write_ids)
      else (Permission.Read (closeIds st.read_ids st.write_ids), Permission.Write st.write_ids)
    .ok ⟨rw.1, rw.2⟩

/-- `Permission::parse` from `src/auth.rs` (minimal grammar). -/
def Permission.parse (perm : String) : ParseResult Permissions :=
  let perms := (perm.data.filter fun c => c != ' ' && c != ')').map toAsciiUpper
  match runClauses (.ok ⟨[], []⟩) (splitOnChar '|' perms) with
  | .ok st => finalize st
  | .err m => .err m
  | .panicked => .panicked

end Min

section SpecSide

open Ext

/-- Spec-side projection: the ids of the `Equipment` entries of a scope
list, in first-seen order, duplicates preserved. -/
def equipmentIdsOf (scope : List Scope) : List Int :=
  scope.filterMap fun s =>
    match s with
    | Scope.Equipment id => some id
    | _ => none

/-- Spec-side projection: the ids of the `Person` entries of a scope list,
in first-seen order, duplicates preserved. -/
def personIdsOf (scope : List Scope) : List Int :=
  scope.filterMap fun s =>
    match s with
    | Scope.Person id => some id
    | _ => none

/-- Spec-side rendering of an id group: decimal ids joined by commas. -/
def joinCommaChars : List Int → List Char
  | [] => []
  | [id] => intChars id
  | id :: rest => intChars id ++ [','] ++ joinCommaChars rest

/-- Spec-side rendering of the filter fragment for a `Read` scope list,
following the spec's words: each non-empty group is emitted as
`col IN (ids)` with the equipment group (under column `eqCol`) before the
person group (under column `perCol`), the groups joined by ` AND `, and the
whole fragment prefixed by ` WHERE ` when any group is non-empty. `Any`
entries are skipped. -/
def querySelectColumns (eqCol perCol : String) (scope : List Scope) : List Char :=
  let e := equipmentIdsOf scope
  let q := personIdsOf scope
  (if ¬e = [] ∨ ¬q = [] then " WHERE ".data else [])
    ++ (if ¬e = [] then eqCol.data ++ " IN (".data ++ joinCommaChars e ++ [')'] else [])
    ++ (if ¬q = [] then
          (if ¬e = [] then " AND ".data else []) ++ perCol.data ++ " IN (".data
            ++ joinCommaChars q ++ [')']
        else [])

/-- Spec-side version of `get_query_select`, following the spec's words:
empty output for `ReadAny`, `WriteAny`, `Write(_)` and `Create(_)`; for
`Read` the grouped rendering, with the sanitized caller field naming the
equipment group's column and the person group under the fixed column
`person`. -/
def querySelectSpec (p : Permission) (field : String) : String :=
  match p with
  | Permission.Read scope => ⟨querySelectColumns (sanitizeField field) "person" scope⟩
  | _ => ""

/-- Spec-side per-item taxonomy for the extended grammar, following the
claim's order of checks: `Missing id` if either bracket is absent; a panic
when the first `]` precedes the first `[` (the amendment forced by the
code); `Could not parse id` if the bracket contents are not a valid `i32`;
`Unrecognized scope` for a tag other than `EQUIPMENT`/`PERSON`;
`Unrecognized action` for an action other than `READ`/`WRITE`; otherwise
the scope is dispatched into the read or write accumulator. -/
def scopeItemTaxonomy (action : List Char) (st : ParseState) (item : List Char) :
    ParseResult ParseState :=
  match item.findIdx? (· == '['), item.findIdx? (· == ']') with
  | none, _ => .err missingIdMsg
  | some _, none => .err missingIdMsg
  | some o, some c =>
    if c < o + 1 then .panicked
    else
      match parseI32 ((item.drop (o + 1)).take (c - (o + 1))) with
      | none => .err couldNotParseMsg
      | some id =>
        if ¬item.take o = "EQUIPMENT".data ∧ ¬item.take o = "PERSON".data then
          .err unrecognizedScopeMsg
        else if ¬action = "READ".data ∧ ¬action = "WRITE".data then
          .err unrecognizedActionMsg
        else
          let sc := if item.take o = "EQUIPMENT".data then Scope.Equipment id
                    else Scope.Person id
          if action = "READ".data then
            .ok { st with read_scopes := st.read_scopes ++ [sc] }
          else
            .ok { st with write_scopes := st.write_scopes ++ [sc] }

end SpecSide

namespace Ext

/-- `closeScopes` leaves the original read scopes in place as a prefix and
appends only scopes that were missing from them, each drawn from the write
scopes. -/
theorem closeScopes_append (ws rs : List Scope) :
    ∃ extra, closeScopes rs ws = rs ++ extra ∧ ∀ x ∈ extra, x ∉ rs ∧ x ∈ ws := by
  induction ws generalizing rs with
  | nil => exact ⟨[], by simp [closeScopes]⟩
  | cons w ws ih =>
    by_cases hw : w ∈ rs
    · obtain ⟨extra, heq, hmem⟩ := ih rs
      refine ⟨extra, ?_, fun x hx => ⟨(hmem x hx).1, List.mem_cons_of_mem _ (hmem x hx).2⟩⟩
      simpa [closeScopes, hw] using heq
    · obtain ⟨extra, heq, hmem⟩ := ih (rs ++ [w])
      refine ⟨w :: extra, ?_, ?_⟩
      · have : closeScopes rs (w :: ws) = closeScopes (rs ++ [w]) ws := by
          simp [closeScopes, hw]
        rw [this, heq, List.append_assoc]
        rfl
      · intro x hx
        rcases List.mem_cons.mp hx with rfl | hx
        · exact ⟨hw, List.mem_cons_self _ _⟩
        · have h1 := (hmem x hx).1
          have h2 := (hmem x hx).2
          constructor
          · intro hxrs; exact h1 (List.mem_append_left _ hxrs)
          · exact List.mem_cons_of_mem _ h2

/-- Membership in the read scopes is preserved by `closeScopes`. -/
theorem closeScopes_mem_left (ws rs : List Scope) (x : Scope) (hx : x ∈ rs) :
    x ∈ closeScopes rs ws := by
  obtain ⟨extra, heq, -⟩ := closeScopes_append ws rs
  rw [heq]
  exact List.mem_append_left _ hx

/-- Every write scope ends up in the closed read scopes. -/
theorem closeScopes_mem_right (ws rs : List Scope) (x : Scope) (hx : x ∈ ws) :
    x ∈ closeScopes rs ws := by
  induction ws generalizing rs with
  | nil => cases hx
  | cons w ws ih =>
    have hstep : closeScopes rs (w :: ws)
        = closeScopes (if w ∈ rs then rs else rs ++ [w]) ws := by
      by_cases hw : w ∈ rs <;> simp [closeScopes, hw]
    rcases List.mem_cons.mp hx with rfl | hx
    · rw [hstep]
      apply closeScopes_mem_left
      by_cases hw : x ∈ rs <;> simp [hw]
    · rw [hstep]
      exact ih _ hx

/-- If running the clause loop produced a success, the initial accumulator
was itself a success. -/
theorem runClauses_ok_inv (r : ParseResult ParseState) (L : List (List Char))
    (st' : ParseState) (h : runClauses r L = .ok st') : ∃ st, r = .ok st := by
  cases L with
  | nil => exact ⟨st', h⟩
  | cons cl rest =>
    cases r with
    | ok st => exact ⟨st, rfl⟩
    | err m => exact absurd h (by simp [runClauses])
    | panicked => exact absurd h (by simp [runClauses])

/-- A successful scope item only ever appends to the write scopes. -/
theorem processScopeItem_ws_extend (action : List Char) (st : ParseState)
    (item : List Char) (st' : ParseState)
    (h : processScopeItem action st item = .ok st') :
    ∃ l, st'.write_scopes = st.write_scopes ++ l := by
  revert h
  unfold processScopeItem
  dsimp only
  repeat' split
  all_goals intro h
  all_goals try cases h
  all_goals first
    | exact ⟨[], (List.append_nil _).symm⟩
    | exact ⟨_, rfl⟩

/-- A successful item loop only ever appends to the write scopes. -/
theorem runItems_ws_extend (action : List Char) (items : List (List Char))
    (st st' : ParseState) (h : runItems action st items = .ok st') :
    ∃ l, st'.write_scopes = st.write_scopes ++ l := by
  induction items generalizing st with
  | nil =>
    refine ⟨[], ?_⟩
    simp only [runItems] at h
    cases h
    simp
  | cons item rest ih =>
    simp only [runItems] at h
    cases hi : processScopeItem action st item with
    | ok st₁ =>
      rw [hi] at h
      obtain ⟨l₂, h₂⟩ := ih st₁ h
      obtain ⟨l₁, h₁⟩ := processScopeItem_ws_extend action st item st₁ hi
      exact ⟨l₁ ++ l₂, by rw [h₂, h₁, List.append_assoc]⟩
    | err m => rw [hi] at h; cases h
    | panicked => rw [hi] at h; cases h

/-- A successful clause only ever appends to the write scopes. -/
theorem processClause_ws_extend (st : ParseState) (cl : List Char) (st' : ParseState)
    (h : processClause st cl = .ok st') :
    ∃ l, st'.write_scopes = st.write_scopes ++ l := by
  unfold processClause at h
  split at h
  · cases h; exact ⟨[], by simp⟩
  · split at h
    · cases h; exact ⟨[Scope.Any], rfl⟩
    · split at h
      · cases h; exact ⟨[], by simp⟩
      · split at h
        · cases h; exact ⟨[], by simp⟩
        · split at h
          · cases h
          · rename_i action_scope heq
            exact runItems_ws_extend _ _ _ _ h

/-- A successful clause-loop run only ever appends to the write scopes. -/
theorem runClauses_ws_extend (L : List (List Char)) (st st' : ParseState)
    (h : runClauses (.ok st) L = .ok st') :
    ∃ l, st'.write_scopes = st.write_scopes ++ l := by
  induction L generalizing st with
  | nil =>
    simp only [runClauses] at h
    cases h
    exact ⟨[], by simp⟩
  | cons cl rest ih =>
    simp only [runClauses] at h
    obtain ⟨st₁, h₁⟩ := runClauses_ok_inv _ _ _ h
    rw [h₁] at h
    obtain ⟨l₂, h₂⟩ := ih st₁ h
    obtain ⟨l₁, hl₁⟩ := processClause_ws_extend st cl st₁ h₁
    exact ⟨l₁ ++ l₂, by rw [h₂, hl₁, List.append_assoc]⟩

/-- If the literal wildcard write clause occurs among the clauses and the
clause loop succeeds, `Scope::Any` is in the final write scopes. -/
theorem runClauses_wildcard_mem (L : List (List Char)) (st st' : ParseState)
    (hmem : "WRITE(*".data ∈ L) (h : runClauses (.ok st) L = .ok st') :
    Scope.Any ∈ st'.write_scopes := by
  induction L generalizing st with
  | nil => cases hmem
  | cons cl rest ih =>
    simp only [runClauses] at h
    rcases List.mem_cons.mp hmem with rfl | hmem
    · have hcl : processClause st ("WRITE(*".data)
          = .ok { st with write_scopes := st.write_scopes ++ [Scope.Any] } := by
        simp [processClause]
      rw [hcl] at h
      obtain ⟨l, hl⟩ := runClauses_ws_extend rest _ _ h
      rw [hl]
      simp
    · obtain ⟨st₁, h₁⟩ := runClauses_ok_inv _ _ _ h
      rw [h₁] at h
      exact ih st₁ hmem h

/-- Case analysis of a successful `finalize`: the guard passed and the
result is one of the three read/write combinations of the repair pass. -/
theorem finalize_ok_cases (st : ParseState) (p : Permissions) (h : finalize st = .ok p) :
    ∃ c, st.create_scope = some c ∧ st.read_scopes ≠ [] ∧ st.write_scopes ≠ [] ∧
      p.create = Permission.Create c ∧
      ((Scope.Any ∈ st.write_scopes ∧ p.read = Permission.ReadAny ∧ p.write = Permission.WriteAny)
        ∨ (Scope.Any ∉ st.write_scopes ∧ Scope.Any ∈ st.read_scopes ∧
            p.read = Permission.ReadAny ∧ p.write = Permission.Write st.write_scopes)
        ∨ (Scope.Any ∉ st.write_scopes ∧ Scope.Any ∉ st.read_scopes ∧
            p.read = Permission.Read (closeScopes st.read_scopes st.write_scopes) ∧
            p.write = Permission.Write st.write_scopes)) := by
  unfold finalize at h
  split at h
  · cases h
  · rename_i hcond
    push_neg at hcond
    obtain ⟨h1, h2, h3⟩ := hcond
    cases hcc : st.create_scope with
    | none => exact absurd hcc h3
    | some c =>
      rw [hcc] at h
      dsimp only at h
      refine ⟨c, rfl, h1, h2, ?_⟩
      by_cases hw : Scope.Any ∈ st.write_scopes
      · rw [if_pos hw] at h
        cases h
        exact ⟨rfl, Or.inl ⟨hw, rfl, rfl⟩⟩
      · rw [if_neg hw] at h
        by_cases hr : Scope.Any ∈ st.read_scopes
        · rw [if_pos hr] at h
          cases h
          exact ⟨rfl, Or.inr (Or.inl ⟨hw, hr, rfl, rfl⟩)⟩
        · rw [if_neg hr] at h
          cases h
          exact ⟨rfl, Or.inr (Or.inr ⟨hw, hr, rfl, rfl⟩)⟩

end Ext

/-- Claim C1 (write-scope-closure invariant): whenever the extended-grammar
parse succeeds with a read permission that is not `ReadAny`, the result's
read list is the accumulated read scopes followed by exactly the write
scopes that were missing from them, so every scope of the resulting write
list is present in the resulting read list and the prior ordering of the
read entries is preserved. -/
theorem c1_write_scope_closure (s : String) (rd wr cr : Ext.Permission)
    (h : Ext.Permission.parse s = .ok ⟨rd, wr, cr⟩)
    (hrd : rd ≠ Ext.Permission.ReadAny) :
    ∃ rs ws extra c,
      Ext.runClauses (.ok Ext.initState) (Ext.clausesOf s) = .ok ⟨rs, ws, some c⟩ ∧
      rd = Ext.Permission.Read (rs ++ extra) ∧
      wr = Ext.Permission.Write ws ∧
      (∀ x, x ∈ ws → x ∈ rs ++ extra) ∧
      (∀ x, x ∈ extra → x ∉ rs ∧ x ∈ ws) := by
  unfold Ext.Permission.parse at h
  cases hr : Ext.runClauses (.ok Ext.initState) (Ext.clausesOf s) with
  | err m => rw [hr] at h; cases h
  | panicked => rw [hr] at h; cases h
  | ok st =>
    rw [hr] at h
    obtain ⟨c, hc, -, -, -, hcases⟩ := Ext.finalize_ok_cases st _ h
    rcases hcases with ⟨-, hrd', -⟩ | ⟨-, -, hrd', -⟩ | ⟨-, -, hrd', hwr'⟩
    · exact absurd hrd' hrd
    · exact absurd hrd' hrd
    · obtain ⟨extra, heq, hmiss⟩ := Ext.closeScopes_append st.write_scopes st.read_scopes
      have hrd2 : rd = Ext.Permission.Read (Ext.closeScopes st.read_scopes st.write_scopes) := hrd'
      have hwr2 : wr = Ext.Permission.Write st.write_scopes := hwr'
      refine ⟨st.read_scopes, st.write_scopes, extra, c, ?_, ?_, hwr2, ?_, hmiss⟩
      · rw [← hc]
      · rw [hrd2, heq]
      · intro x hx
        rw [← heq]
        exact Ext.closeScopes_mem_right _ _ _ hx

/-- Witness for C1 at a concrete input: the write scope `equipment[3]` is
missing from the read clause and gets appended to the read list. -/
theorem c1_write_scope_closure_witness :
    Ext.Permission.parse
        "READ(equipment[1],equipment[2])|WRITE(equipment[1],equipment[2],equipment[3])|CREATE(false)"
      = .ok ⟨.Read [.Equipment 1, .Equipment 2, .Equipment 3],
             .Write [.Equipment 1, .Equipment 2, .Equipment 3], .Create false⟩
    ∧ ∃ rs ws extra c,
        Ext.runClauses (.ok Ext.initState)
            (Ext.clausesOf
              "READ(equipment[1],equipment[2])|WRITE(equipment[1],equipment[2],equipment[3])|CREATE(false)")
          = .ok ⟨rs, ws, some c⟩ ∧
        Ext.Permission.Read [Ext.Scope.Equipment 1, Ext.Scope.Equipment 2, Ext.Scope.Equipment 3]
          = Ext.Permission.Read (rs ++ extra) ∧
        Ext.Permission.Write [Ext.Scope.Equipment 1, Ext.Scope.Equipment 2, Ext.Scope.Equipment 3]
          = Ext.Permission.Write ws ∧
        (∀ x, x ∈ ws → x ∈ rs ++ extra) ∧
        (∀ x, x ∈ extra → x ∉ rs ∧ x ∈ ws) :=
  ⟨by decide,
   c1_write_scope_closure
     "READ(equipment[1],equipment[2])|WRITE(equipment[1],equipment[2],equipment[3])|CREATE(false)"
     (.Read [.Equipment 1, .Equipment 2, .Equipment 3])
     (.Write [.Equipment 1, .Equipment 2, .Equipment 3])
     (.Create false) (by decide) (by decide)⟩

/-- Counterexample to claim C2 as stated: the parser ignores trailing junk
after the bracketed id of a scope item, so the write clause of this input
contains the character `*` (its normalized clause is `WRITE(EQUIPMENT[1]*`),
yet the parse succeeds with `write = Write [Equipment 1]`, not `WriteAny`,
and `read = Read [Equipment 1]`, not `ReadAny`. -/
theorem c2_any_propagation_cex :
    Ext.clausesOf "READ(equipment[1])|WRITE(equipment[1]*)|CREATE(true)"
      = ["READ(EQUIPMENT[1]".data, "WRITE(EQUIPMENT[1]*".data, "CREATE(TRUE".data]
    ∧ '*' ∈ "WRITE(EQUIPMENT[1]*".data
    ∧ Ext.Permission.parse "READ(equipment[1])|WRITE(equipment[1]*)|CREATE(true)"
        = .ok ⟨.Read [.Equipment 1], .Write [.Equipment 1], .Create true⟩
    ∧ Ext.Permission.Write [Ext.Scope.Equipment 1] ≠ Ext.Permission.WriteAny := by
  refine ⟨by decide, by decide, by decide, by decide⟩

/-- Claim C2, amended: if the extended-grammar parse succeeds and one of the
normalized clauses is exactly the wildcard write clause `WRITE(*`, then the
result is `read = ReadAny` and `write = WriteAny`, regardless of what the
read clause specified. -/
theorem c2_any_propagation (s : String) (rd wr cr : Ext.Permission)
    (h : Ext.Permission.parse s = .ok ⟨rd, wr, cr⟩)
    (hw : "WRITE(*".data ∈ Ext.clausesOf s) :
    rd = Ext.Permission.ReadAny ∧ wr = Ext.Permission.WriteAny := by
  unfold Ext.Permission.parse at h
  cases hr : Ext.runClauses (.ok Ext.initState) (Ext.clausesOf s) with
  | err m => rw [hr] at h; cases h
  | panicked => rw [hr] at h; cases h
  | ok st =>
    rw [hr] at h
    have hany : Ext.Scope.Any ∈ st.write_scopes :=
      Ext.runClauses_wildcard_mem _ _ _ hw hr
    obtain ⟨c, -, -, -, -, hcases⟩ := Ext.finalize_ok_cases st _ h
    rcases hcases with ⟨-, hrd', hwr'⟩ | ⟨hnw, -, -, -⟩ | ⟨hnw, -, -, -⟩
    · exact ⟨hrd', hwr'⟩
    · exact absurd hany hnw
    · exact absurd hany hnw

/-- Witness for the amended C2: a read clause listing a concrete equipment
scope is overridden to `ReadAny` by the wildcard write clause. -/
theorem c2_any_propagation_witness :
    Ext.Permission.parse "READ(equipment[2])|WRITE(*)|CREATE(true)"
      = .ok ⟨.ReadAny, .WriteAny, .Create true⟩
    ∧ "WRITE(*".data ∈ Ext.clausesOf "READ(equipment[2])|WRITE(*)|CREATE(true)"
    ∧ (Ext.Permission.ReadAny = Ext.Permission.ReadAny
        ∧ Ext.Permission.WriteAny = Ext.Permission.WriteAny) :=
  ⟨by decide, by decide,
   c2_any_propagation "READ(equipment[2])|WRITE(*)|CREATE(true)"
     .ReadAny .WriteAny (.Create true) (by decide) (by decide)⟩

/-- Claim C3: the extended-grammar parse does panic on an input whose scope
item has its first `]` before its first `[`: the Rust slice
`&scope_str[open_paren + 1..close_paren]` is evaluated with
`open_paren + 1 > close_paren`, which aborts instead of returning one of the
six error values. -/
theorem c3_panic_on_reversed_brackets :
    Ext.Permission.parse "READ(]equipment[1)|WRITE(*)|CREATE(true)" = .panicked := by
  decide

/-- Claim C5 (required-clause enforcement): when the clause loop finishes
without another error, the parse returns the incomplete-spec error
(`No action/scope found`) exactly when the read scopes are empty, the write
scopes are empty, or the create flag was never set; in particular a lone
read clause and a lone create clause both fail with it. -/
theorem c5_required_clause (s : String) (st : Ext.ParseState)
    (h : Ext.runClauses (.ok Ext.initState) (Ext.clausesOf s) = .ok st) :
    (Ext.Permission.parse s = .err Ext.noActionMsg ↔
      (st.read_scopes = [] ∨ st.write_scopes = [] ∨ st.create_scope = none))
    ∧ Ext.Permission.parse "READ(equipment[1])" = .err Ext.noActionMsg
    ∧ Ext.Permission.parse "CREATE(false)" = .err Ext.noActionMsg := by
  refine ⟨?_, by decide, by decide⟩
  have hp : Ext.Permission.parse s = Ext.finalize st := by
    unfold Ext.Permission.parse
    rw [h]
  rw [hp]
  unfold Ext.finalize
  split
  · rename_i hcond
    exact iff_of_true rfl hcond
  · rename_i hcond
    push_neg at hcond
    obtain ⟨h1, h2, h3⟩ := hcond
    cases hcc : st.create_scope with
    | none => exact absurd hcc h3
    | some c =>
      dsimp only
      exact iff_of_false (by simp) (by simp [h1, h2, h3])

/-- Witness for C5: `CREATE(false)` alone reaches the final check with empty
read scopes and fails with the incomplete-spec error. -/
theorem c5_required_clause_witness :
    Ext.Permission.parse "CREATE(false)" = .err Ext.noActionMsg :=
  (c5_required_clause "CREATE(false)" ⟨[], [], some false⟩ (by decide)).1.mpr (Or.inl rfl)

section CompilerLemmas

open Ext

/-- The decimal rendering of a natural number is never empty. -/
theorem natCharsAux_ne_nil (fuel n : Nat) : natCharsAux (fuel + 1) n ≠ [] := by
  unfold natCharsAux
  split
  · simp
  · simp [List.append_eq_nil]

/-- The decimal rendering of an integer is never empty. -/
theorem intChars_ne_nil (i : Int) : intChars i ≠ [] := by
  cases i with
  | ofNat n => exact natCharsAux_ne_nil n n
  | negSucc m => simp [intChars]

/-- Spec-side helper: rendering of the non-leading ids of a group, each
preceded by a comma separator. -/
def joinTail : List Int → List Char
  | [] => []
  | id :: rest => [','] ++ intChars id ++ joinTail rest

/-- Unfolding of `joinCommaChars` on a non-empty list into its head and the
comma-separated tail. -/
theorem joinCommaChars_cons (id : Int) (rest : List Int) :
    joinCommaChars (id :: rest) = intChars id ++ joinTail rest := by
  induction rest generalizing id with
  | nil => simp [joinCommaChars, joinTail]
  | cons j rs ih =>
    show intChars id ++ [','] ++ joinCommaChars (j :: rs) = _
    rw [ih j]
    simp [joinTail]

/-- The id-accumulating fold started from a non-empty accumulator appends
the comma-separated tail rendering. -/
theorem foldl_pushId_ne (l : List Int) (a : List Char) (ha : a ≠ []) :
    List.foldl pushId a l = a ++ joinTail l := by
  induction l generalizing a with
  | nil => simp [joinTail]
  | cons id rest ih =>
    have hstep : pushId a id = a ++ [','] ++ intChars id := by
      simp [pushId, ha]
    have hne : pushId a id ≠ [] := by
      rw [hstep]
      simp [List.append_eq_nil, ha]
    show List.foldl pushId (pushId a id) rest = _
    rw [ih _ hne, hstep]
    simp [joinTail]

/-- The id-accumulating fold started from the empty accumulator is exactly
the comma-joined rendering. -/
theorem foldl_pushId_nil (l : List Int) :
    List.foldl pushId [] l = joinCommaChars l := by
  cases l with
  | nil => rfl
  | cons id rest =>
    have h0 : pushId ([] : List Char) id = intChars id := by simp [pushId]
    show List.foldl pushId (pushId [] id) rest = _
    rw [h0, foldl_pushId_ne rest _ (intChars_ne_nil id), joinCommaChars_cons]

/-- The comma-joined rendering is empty exactly when the id list is. -/
theorem joinCommaChars_eq_nil (l : List Int) : joinCommaChars l = [] ↔ l = [] := by
  cases l with
  | nil => simp [joinCommaChars]
  | cons id rest =>
    rw [joinCommaChars_cons]
    simp [List.append_eq_nil, intChars_ne_nil]

/-- The accumulation loop of `get_query_select` computes the fold of
`pushId` over the equipment ids and the person ids of the scope list. -/
theorem collectIds_eq (scope : List Scope) (e p : List Char) :
    collectIds scope (e, p)
      = (List.foldl pushId e (equipmentIdsOf scope),
         List.foldl pushId p (personIdsOf scope)) := by
  induction scope generalizing e p with
  | nil => simp [collectIds, equipmentIdsOf, personIdsOf]
  | cons s rest ih =>
    cases s with
    | Equipment id =>
      show collectIds rest (pushId e id, p) = _
      rw [ih]
      simp [equipmentIdsOf, personIdsOf, List.filterMap_cons]
    | Person id =>
      show collectIds rest (e, pushId p id) = _
      rw [ih]
      simp [equipmentIdsOf, personIdsOf, List.filterMap_cons]
    | Any =>
      show collectIds rest (e, p) = _
      rw [ih]
      simp [equipmentIdsOf, personIdsOf, List.filterMap_cons]

/-- The character-level body of `get_query_select` on a `Read` list agrees
with the spec-side grouped rendering, with the sanitized field naming the
equipment group and the fixed column `person` naming the person group. -/
theorem gqsChars_read_eq (field : String) (scope : List Scope) :
    gqsChars (Permission.Read scope) field
      = querySelectColumns (sanitizeField field) "person" scope := by
  unfold gqsChars querySelectColumns
  dsimp only
  rw [collectIds_eq scope [] []]
  dsimp only
  rw [foldl_pushId_nil, foldl_pushId_nil]
  simp only [joinCommaChars_eq_nil]
  simp [List.append_assoc]

end CompilerLemmas

/-- Claim C4: `get_query_select` agrees with the spec-side grouped
rendering on every permission and field — empty output for `ReadAny`,
`WriteAny`, `Write(_)`, `Create(_)` and for `Read` lists with no
equipment/person entry, and otherwise ` WHERE ` followed by the non-empty
groups joined by ` AND `, equipment group first, ids in first-seen order
with duplicates preserved — and yields the exact expected fragment on the
spec's concrete example. -/
theorem c4_predicate_compiler :
    (∀ p field, Ext.Permission.get_query_select p field = querySelectSpec p field)
    ∧ Ext.Permission.get_query_select
        (.Read [.Equipment 1, .Equipment 2, .Person 666, .Person 42]) "id"
      = " WHERE id IN (1,2) AND person IN (666,42)" := by
  refine ⟨fun p field => ?_, by decide⟩
  cases p with
  | Read scope => exact congrArg String.mk (gqsChars_read_eq field scope)
  | ReadAny => rfl
  | WriteAny => rfl
  | Write scopes => rfl
  | Create b => rfl

/-- Counterexample to claim C9 as stated: the equipment group is not
emitted under a fixed column name `equipment`; with field `"id"` it is
emitted under `id`. -/
theorem c9_equipment_column_cex :
    Ext.Permission.get_query_select (.Read [.Equipment 1]) "id" = " WHERE id IN (1)"
    ∧ Ext.Permission.get_query_select (.Read [.Equipment 1]) "id"
        ≠ " WHERE equipment IN (1)" := by
  refine ⟨by decide, by decide⟩

/-- Claim C9, amended: there is no generic-id group; the caller-supplied
resolved column name (the sanitized field, falling back to `id`) names the
equipment group, while the person group is always emitted under the fixed
column name `person`, regardless of the field argument. -/
theorem c9_column_names (field : String) (scope : List Ext.Scope) :
    Ext.Permission.get_query_select (.Read scope) field
      = String.mk (querySelectColumns (Ext.sanitizeField field) "person" scope) :=
  congrArg String.mk (gqsChars_read_eq field scope)

/-- Counterexample to claim C6 as stated: in the item `equipment]1[` both
brackets are present, so the claim demands the bad-id error for its
unparsable bracket contents, but the code panics on the reversed
brackets instead of returning an error value. -/
theorem c6_taxonomy_cex :
    Ext.Permission.parse "READ(equipment]1[)|WRITE(equipment[1])|CREATE(true)" = .panicked
    ∧ Ext.Permission.parse "READ(equipment]1[)|WRITE(equipment[1])|CREATE(true)"
        ≠ .err Ext.couldNotParseMsg := by
  refine ⟨by decide, by decide⟩

/-- Claim C6, amended: the per-item processing follows the claimed error
taxonomy and order — `Missing id` when a bracket is absent, then `Could not
parse id`, then `Unrecognized scope`, then `Unrecognized action` — except
that when the first `]` precedes the first `[` the code panics; the three
concrete malformed inputs fail with the claimed errors. -/
theorem c6_scope_item_taxonomy :
    (∀ action st item,
      Ext.processScopeItem action st item = scopeItemTaxonomy action st item)
    ∧ Ext.Permission.parse "READ(equipment[])|WRITE(equipment[1])"
        = .err Ext.couldNotParseMsg
    ∧ Ext.Permission.parse "READ(equipment[1],x[2])|WRITE(equipment[1])"
        = .err Ext.unrecognizedScopeMsg
    ∧ Ext.Permission.parse "FOO(equipment[1])|WRITE(equipment[1])"
        = .err Ext.unrecognizedActionMsg := by
  refine ⟨fun action st item => ?_, by decide, by decide, by decide⟩
  unfold Ext.processScopeItem scopeItemTaxonomy
  cases ho : item.findIdx? (· == '[') with
  | none => rfl
  | some o =>
    cases hc : item.findIdx? (· == ']') with
    | none => rfl
    | some c =>
      try dsimp only
      by_cases hoc : o + 1 > c
      · rw [if_pos hoc, if_pos hoc]
      · rw [if_neg hoc, if_neg hoc]
        try dsimp only
        cases hp : parseI32 ((item.drop (o + 1)).take (c - (o + 1))) with
        | none => rfl
        | some id =>
          by_cases hE : item.take o = "EQUIPMENT".data
          · by_cases hR : action = "READ".data
            · simp [hE, hR]
            · by_cases hW : action = "WRITE".data
              · simp [hE, hR, hW]
              · simp [hE, hR, hW]
          · by_cases hP : item.take o = "PERSON".data
            · by_cases hR : action = "READ".data
              · simp [hE, hP, hR]
              · by_cases hW : action = "WRITE".data
                · simp [hE, hP, hR, hW]
                · simp [hE, hP, hR, hW]
            · simp [hE, hP]

/-- Claim C7 (idempotence of normalization): the four spacing and casing
variants of the wildcard permission string all parse, in the minimal
grammar of `src/auth.rs`, to the identical `ReadAny`/`WriteAny` result. -/
theorem c7_normalization_idempotence :
    Min.Permission.parse "READ(*)|WRITE(*)" = .ok ⟨.ReadAny, .WriteAny⟩
    ∧ Min.Permission.parse "read(*)|write(*)" = .ok ⟨.ReadAny, .WriteAny⟩
    ∧ Min.Permission.parse "READ( * )|WRITE(* )" = .ok ⟨.ReadAny, .WriteAny⟩
    ∧ Min.Permission.parse "READ (*) | WRITE( *)" = .ok ⟨.ReadAny, .WriteAny⟩ := by
  refine ⟨by decide, by decide, by decide, by decide⟩

/-- Counterexample to claim C8 as stated: a well-formed scope item with tag
`ID` and a valid bracketed integer is not accepted as a generic-id scope but
rejected with the unrecognized-scope error. -/
theorem c8_id_tag_cex :
    Ext.Permission.parse "READ(id[7],equipment[1])|WRITE(equipment[1])|CREATE(true)"
      = .err Ext.unrecognizedScopeMsg := by
  decide

/-- Claim C8, amended: the extended grammar's `Scope` type provides only the
`Equipment`, `Person` and `Any` variants — no generic-id variant — and a
well-formed scope item with tag `ID` fails with the unrecognized-scope
error instead of being accepted. -/
theorem c8_no_generic_id_variant :
    (∀ sc : Ext.Scope, (∃ n, sc = .Equipment n) ∨ (∃ n, sc = .Person n) ∨ sc = .Any)
    ∧ Ext.Permission.parse "READ(id[3])|WRITE(equipment[1])|CREATE(true)"
        = .err Ext.unrecognizedScopeMsg := by
  refine ⟨fun sc => ?_, by decide⟩
  cases sc with
  | Equipment n => exact Or.inl ⟨n, rfl⟩
  | Person n => exact Or.inr (Or.inl ⟨n, rfl⟩)
  | Any => exact Or.inr (Or.inr rfl)

/-- Claim C10: in the minimal grammar the wildcard is encoded as the id
`-1`, so clauses listing the literal id `-1` behave exactly like wildcard
clauses even though the input contains no `*`. -/
theorem c10_minus_one_wildcard :
    Min.Permission.parse "READ(5)|WRITE(-1)" = .ok ⟨.ReadAny, .WriteAny⟩
    ∧ Min.Permission.parse "READ(-1)|WRITE(5)" = .ok ⟨.ReadAny, .Write [5]⟩ := by
  refine ⟨by decide, by decide⟩
